import Mathlib

/-!
Verification development for a chat-bot that enforces a per-user,
per-community posting quota on short-form video links (source:
shorts_limit_bot.py).  The store (an SQLite table of rows
(guild_id, user_id, posted_at_utc)) is modelled as a list of
occurrences; timestamps are integers (epoch seconds).  The link
matcher (a regular expression searched with findall) is modelled as a
character-level scanner; case folding is modelled on ASCII letters,
as in the literals of the pattern.
-/

namespace ShortsLimitBot

/-- Configuration constant ROLLING_WINDOW_DAYS from the source. -/
def ROLLING_WINDOW_DAYS : Int := 7

/-- Configuration constant DELETE_OFFENDING_MESSAGES from the source. -/
def DELETE_OFFENDING_MESSAGES : Bool := true

/-- Configuration constant DM_USER_ON_BLOCK from the source. -/
def DM_USER_ON_BLOCK : Bool := true

/-- Seconds in a day, used to convert the timedelta of days into epoch seconds. -/
def secondsPerDay : Int := 86400

/-- One row of the shorts_posts table. -/
structure Occurrence where
  guild_id : Int
  user_id : Int
  posted_at_utc : Int
deriving DecidableEq, Repr

/-- The shorts_posts table, in insertion order. -/
abbrev Store := List Occurrence

/-! The link matcher.  The source pattern, with the verbose-mode
whitespace removed, is
  https?://(www.)?(m.)?youtube.com/shorts/[A-Za-z0-9_-]X(([/?#&]).*)?
where the dots of the host are literal, X means at least five
repetitions, and the whole pattern carries the ignore-case flag. -/

/-- Character class [A-Za-z0-9_-] of the identifier part. -/
def isIdChar (c : Char) : Bool :=
  c.isAlpha || c.isDigit || c = '_' || c = '-'

/-- Character class [/?#&] opening the optional trailing part. -/
def isTrailStart (c : Char) : Bool :=
  c = '/' || c = '?' || c = '#' || c = '&'

/-- Lower-case image of a character list, the ASCII case folding used
to model the ignore-case flag. -/
def lower (l : List Char) : List Char := l.map Char.toLower

/-- Case-insensitive literal matching: consume lit from the front of s,
comparing characters through Char.toLower, and return the rest. -/
def stripCI : List Char → List Char → Option (List Char)
  | [], s => some s
  | _ :: _, [] => none
  | l :: lt, c :: ct => if c.toLower = l.toLower then stripCI lt ct else none

/-- Optional case-insensitive literal: consume lit if it is there
(modelling a greedy optional group over a literal). -/
def optCI (lit s : List Char) : List Char :=
  match stripCI lit s with
  | some r => r
  | none => s

def httpLit : List Char := "http".data
def sLit : List Char := "s".data
def schemeSepLit : List Char := "://".data
def wwwLit : List Char := "www.".data
def mLit : List Char := "m.".data
def hostPathLit : List Char := "youtube.com/shorts/".data

/-- Length of the optional trailing part ([/?#&].*)? at the given rest
of the input; the dot of the pattern does not cross a newline. -/
def trailLen : List Char → Nat
  | [] => 0
  | c :: rest =>
      if isTrailStart c then 1 + (rest.takeWhile (fun d => d != '\n')).length else 0

/-- Attempt to match the pattern at the front of s; on success return
the length of the matched text.  The pattern has no backtracking
ambiguity: each optional literal is either present or its absence is
forced by the next required character. -/
def matchShorts (s : List Char) : Option Nat :=
  (stripCI httpLit s).bind fun s1 =>
  (stripCI schemeSepLit (optCI sLit s1)).bind fun s3 =>
  (stripCI hostPathLit (optCI mLit (optCI wwwLit s3))).bind fun s6 =>
  let run := s6.takeWhile isIdChar
  if 5 ≤ run.length then
    let s7 := s6.dropWhile isIdChar
    some (s.length - s7.length + trailLen s7)
  else none

/-- The scan of re.findall: try the pattern at each position from the
left; after a match continue behind the matched text.  The fuel starts
at the length of the input, which each step consumes at least one of. -/
def findAllAux : Nat → List Char → List String
  | 0, _ => []
  | _ + 1, [] => []
  | fuel + 1, c :: rest =>
      match matchShorts (c :: rest) with
      | some n => String.mk ((c :: rest).take n) :: findAllAux fuel ((c :: rest).drop n)
      | none => findAllAux fuel rest

/-- All matches of the pattern in the text, left to right. -/
def findAll (s : List Char) : List String := findAllAux s.length s

/-- Function extract_shorts_links of the source: the text may be absent,
and an absent text is replaced by the empty string. -/
def extract_shorts_links (text : Option String) : List String :=
  findAll (text.getD "").data

/-! The occurrence store. -/

/-- Function record_shorts_post of the source: append one row. -/
def record_shorts_post (s : Store) (g u now : Int) : Store :=
  s ++ [⟨g, u, now⟩]

/-- Function count_within_window of the source: the SQL count of rows of
the pair with posted_at_utc at or after now minus the window. -/
def count_within_window : Store → Int → Int → Int → Int → Nat
  | [], _, _, _, _ => 0
  | o :: rest, g, u, days, now =>
      (if o.guild_id = g ∧ o.user_id = u ∧ now - days * secondsPerDay ≤ o.posted_at_utc
        then 1 else 0)
        + count_within_window rest g u days now

/-- The SQL DELETE of the shorts_reset_me command: remove the rows of the
pair with posted_at_utc at or after now minus the window. -/
def shorts_reset_me (s : Store) (g u now : Int) : Store :=
  s.filter fun o =>
    !(decide (o.guild_id = g ∧ o.user_id = u ∧
        now - ROLLING_WINDOW_DAYS * secondsPerDay ≤ o.posted_at_utc))

/-! The quota engine. -/

inductive Decision where
  | ALLOW
  | BLOCK
deriving DecidableEq, Repr

/-- The decide-then-record core of on_message (the quota engine of the
spec): count the pair in the rolling window; at least one means block
and record nothing, none means record one row and allow. -/
def evaluate_and_commit (s : Store) (g u now : Int) : Store × Decision :=
  if 1 ≤ count_within_window s g u ROLLING_WINDOW_DAYS now
    then (s, Decision.BLOCK)
    else (record_shorts_post s g u now, Decision.ALLOW)

/-! The orchestrator.  An incoming message carries its author flags,
its text and its optional guild; the handler returns the new store, the
trace of effects it performed in order, and the decision it reached,
if any. -/

structure Message where
  authorIsBot : Bool
  webhookId : Option Int
  content : String
  guild : Option Int
  authorId : Int

inductive Event where
  | matcherRun
  | countQuery
  | record
  | deleteMsg
  | channelNotice
  | dmUser
  | processCommands
deriving DecidableEq, Repr

/-- Handler on_message of the source.  Self and webhook messages return
at once; then the matcher runs; text without links and messages outside
a guild only fall through to command processing; otherwise the window
count decides: block (delete, channel notice, direct message, all
advisory) or allow (record exactly one row).  Command processing runs
in a finally block, so it follows both outcomes. -/
def on_message (s : Store) (m : Message) (now : Int) : Store × List Event × Option Decision :=
  if m.authorIsBot || m.webhookId.isSome then (s, [], none) else
  let links := extract_shorts_links (some m.content)
  if links.isEmpty then (s, [Event.matcherRun, Event.processCommands], none) else
  match m.guild with
  | none => (s, [Event.matcherRun, Event.processCommands], none)
  | some g =>
      let n := count_within_window s g m.authorId ROLLING_WINDOW_DAYS now
      if 1 ≤ n then
        (s,
         [Event.matcherRun, Event.countQuery] ++
           (if DELETE_OFFENDING_MESSAGES then [Event.deleteMsg] else []) ++
           [Event.channelNotice] ++
           (if DM_USER_ON_BLOCK then [Event.dmUser] else []) ++
           [Event.processCommands],
         some Decision.BLOCK)
      else
        (record_shorts_post s g m.authorId now,
         [Event.matcherRun, Event.countQuery, Event.record, Event.processCommands],
         some Decision.ALLOW)

/-! Storage failure model.  The two store operations of the engine may
fail (the database being unreachable); a failing operation raises, and
the source has no handler for it, so the call fails as a whole. -/

inductive StoreErr where
  | unreachable
deriving DecidableEq, Repr

def count_within_windowE (failing : Bool) (s : Store) (g u days now : Int) :
    Except StoreErr Nat :=
  if failing then .error .unreachable else .ok (count_within_window s g u days now)

def record_shorts_postE (failing : Bool) (s : Store) (g u now : Int) :
    Except StoreErr Store :=
  if failing then .error .unreachable else .ok (record_shorts_post s g u now)

/-- The engine with a fallible store: a failing count, or a failing
record on the allow path, aborts the evaluation, as an unhandled
exception propagating out of the handler. -/
def evaluate_and_commitE (failCount failRecord : Bool) (s : Store) (g u now : Int) :
    Except StoreErr (Store × Decision) :=
  match count_within_windowE failCount s g u ROLLING_WINDOW_DAYS now with
  | .error e => .error e
  | .ok n =>
      if 1 ≤ n then .ok (s, Decision.BLOCK)
      else
        match record_shorts_postE failRecord s g u now with
        | .error e => .error e
        | .ok s2 => .ok (s2, Decision.ALLOW)

/-! Interleaving model for concurrent evaluations of the same pair.
The handler awaits the count query and then, separately, the record
insert; between the two awaits the event loop may run another handler
for the same pair.  A task is at its count step, holds a count, or is
finished; a schedule lists which task moves at each step. -/

inductive TaskPC where
  | ready
  | counted (n : Nat)
  | finished (d : Decision)
deriving DecidableEq, Repr

/-- One scheduler step: the chosen task performs its next atomic store
operation (the count query, or the decision with its record insert). -/
def stepTask (g u now : Int) (st : Store × List TaskPC) (i : Nat) :
    Store × List TaskPC :=
  match st.2.get? i with
  | some TaskPC.ready =>
      (st.1, st.2.set i (TaskPC.counted (count_within_window st.1 g u ROLLING_WINDOW_DAYS now)))
  | some (TaskPC.counted n) =>
      if 1 ≤ n then (st.1, st.2.set i (TaskPC.finished Decision.BLOCK))
      else (record_shorts_post st.1 g u now, st.2.set i (TaskPC.finished Decision.ALLOW))
  | _ => st

/-- Run a schedule of task indices from an initial store and task list. -/
def runSchedule (g u now : Int) (st : Store × List TaskPC) (sched : List Nat) :
    Store × List TaskPC :=
  sched.foldl (stepTask g u now) st

/-! The matching rule in the words of the specification: the text
contains an HTTP or HTTPS URL whose host is the target domain,
optionally prefixed by www. or by the mobile subdomain, whose path
begins with the short-form segment followed by at least five
identifier characters; scheme, host and path literals are matched
case-insensitively, anything after the identifier is ignored. -/

/-- The spec rule at the front of the text: a decomposition into
scheme, scheme separator, host, short-form path segment, identifier
and arbitrary rest. -/
def specStartsQualifying (s : List Char) : Prop :=
  ∃ sch sep host seg idc rest,
    s = sch ++ (sep ++ (host ++ (seg ++ (idc ++ rest)))) ∧
    (lower sch = "http".data ∨ lower sch = "https".data) ∧
    lower sep = "://".data ∧
    (lower host = "youtube.com".data ∨ lower host = "www.youtube.com".data ∨
      lower host = "m.youtube.com".data ∨ lower host = "www.m.youtube.com".data) ∧
    lower seg = "/shorts/".data ∧
    5 ≤ idc.length ∧ (∀ c ∈ idc, isIdChar c = true)

/-- The spec rule anywhere in the text. -/
def specQualifying (s : List Char) : Prop :=
  ∃ i, specStartsQualifying (s.drop i)

/-! Helper lemmas about the matcher model. -/

theorem lower_append (a b : List Char) : lower (a ++ b) = lower a ++ lower b :=
  List.map_append Char.toLower a b

theorem lower_take (l : List Char) (n : Nat) : lower (l.take n) = (lower l).take n :=
  List.map_take Char.toLower l n

theorem lower_drop (l : List Char) (n : Nat) : lower (l.drop n) = (lower l).drop n :=
  List.map_drop Char.toLower l n

theorem lower_eq_cons (t : List Char) (c : Char) (cs : List Char)
    (h : lower t = c :: cs) :
    ∃ d ds, t = d :: ds ∧ d.toLower = c ∧ lower ds = cs := by
  cases t with
  | nil => simp [lower] at h
  | cons d ds =>
      simp only [lower, List.map_cons, List.cons.injEq] at h
      exact ⟨d, ds, rfl, h.1, h.2⟩

theorem lower_httpLit : lower httpLit = "http".data := by decide

theorem lower_sLit : lower sLit = "s".data := by decide

theorem lower_schemeSepLit : lower schemeSepLit = "://".data := by decide

theorem lower_wwwLit : lower wwwLit = "www.".data := by decide

theorem lower_mLit : lower mLit = "m.".data := by decide

theorem lower_hostPathLit : lower hostPathLit = "youtube.com/shorts/".data := by decide

theorem stripCI_eq_some_iff (lit : List Char) : ∀ s r : List Char,
    stripCI lit s = some r ↔ ∃ t, s = t ++ r ∧ lower t = lower lit := by
  induction lit with
  | nil =>
      intro s r
      constructor
      · intro h
        have hs : s = r := by simpa [stripCI] using h
        exact ⟨[], by simp [hs], rfl⟩
      · rintro ⟨t, hst, ht⟩
        have ht0 : t = [] := by
          have hl := congrArg List.length ht
          simpa [lower] using hl
        subst ht0
        simp only [List.nil_append] at hst
        simp [stripCI, hst]
  | cons l lt ih =>
      intro s r
      cases s with
      | nil =>
          constructor
          · intro h
            simp [stripCI] at h
          · rintro ⟨t, hst, ht⟩
            have := List.append_eq_nil.mp hst.symm
            rw [this.1] at ht
            simp [lower] at ht
      | cons c ct =>
          by_cases hc : c.toLower = l.toLower
          · simp only [stripCI, if_pos hc]
            rw [ih ct r]
            constructor
            · rintro ⟨t, hst, ht⟩
              refine ⟨c :: t, by simp [hst], ?_⟩
              simp only [lower, List.map_cons]
              rw [hc]
              simpa [lower] using ht
            · rintro ⟨t, hst, ht⟩
              obtain ⟨d, ds, rfl, hd, hds⟩ := lower_eq_cons t l.toLower (lower lt) ht
              simp only [List.cons_append, List.cons.injEq] at hst
              exact ⟨ds, hst.2, hds⟩
          · simp only [stripCI, if_neg hc]
            constructor
            · intro h
              cases h
            · rintro ⟨t, hst, ht⟩
              obtain ⟨d, ds, rfl, hd, hds⟩ := lower_eq_cons t l.toLower (lower lt) ht
              simp only [List.cons_append, List.cons.injEq] at hst
              exact absurd (hst.1 ▸ hd) hc

theorem stripCI_of_lower (lit t r : List Char) (h : lower t = lower lit) :
    stripCI lit (t ++ r) = some r :=
  (stripCI_eq_some_iff lit (t ++ r) r).mpr ⟨t, rfl, h⟩

theorem stripCI_head_ne (l : Char) (lt : List Char) (c : Char) (ct : List Char)
    (h : c.toLower ≠ l.toLower) : stripCI (l :: lt) (c :: ct) = none := by
  simp only [stripCI, if_neg h]

theorem optCI_eq_of_some (lit s r : List Char) (h : stripCI lit s = some r) :
    optCI lit s = r := by
  simp [optCI, h]

theorem optCI_eq_of_none (lit s : List Char) (h : stripCI lit s = none) :
    optCI lit s = s := by
  simp [optCI, h]

theorem optCI_skip (lit s : List Char) (l : Char) (lt : List Char) (hlit : lit = l :: lt)
    (d : Char) (ds : List Char) (hs : s = d :: ds) (h : d.toLower ≠ l.toLower) :
    optCI lit s = s := by
  rw [hlit, hs]
  exact optCI_eq_of_none _ _ (stripCI_head_ne l lt d ds h)

theorem optCI_decomp (lit s : List Char) :
    ∃ t, s = t ++ optCI lit s ∧ (lower t = lower lit ∨ t = []) := by
  cases h : stripCI lit s with
  | none =>
      refine ⟨[], ?_, Or.inr rfl⟩
      rw [optCI_eq_of_none lit s h, List.nil_append]
  | some r =>
      obtain ⟨t, hst, ht⟩ := (stripCI_eq_some_iff lit s r).mp h
      refine ⟨t, ?_, Or.inl ht⟩
      rw [optCI_eq_of_some lit s r h]
      exact hst

theorem takeWhile_append_all (p : Char → Bool) (a b : List Char)
    (h : ∀ c ∈ a, p c = true) :
    (a ++ b).takeWhile p = a ++ b.takeWhile p := by
  induction a with
  | nil => simp
  | cons c a ih =>
      simp only [List.cons_append, List.takeWhile_cons]
      rw [if_pos (h c (List.mem_cons_self c a)), ih (fun d hd => h d (List.mem_cons_of_mem c hd))]

theorem split_take_drop (n : Nat) (a X : List Char) :
    a ++ X = a.take n ++ (a.drop n ++ X) := by
  rw [← List.append_assoc, List.take_append_drop]

theorem stripScheme (sch R : List Char)
    (hsch : lower sch = "http".data ∨ lower sch = "https".data)
    (d : Char) (ds : List Char) (hR : R = d :: ds) (hd : d.toLower = ':') :
    ∃ s1, stripCI httpLit (sch ++ R) = some s1 ∧ optCI sLit s1 = R := by
  rcases hsch with h | h
  · refine ⟨R, stripCI_of_lower httpLit sch R (by rw [h, lower_httpLit]), ?_⟩
    exact optCI_skip sLit R 's' [] rfl d ds hR (by rw [hd]; decide)
  · refine ⟨sch.drop 4 ++ R, ?_, ?_⟩
    · have hsplit : sch ++ R = sch.take 4 ++ (sch.drop 4 ++ R) := by
        rw [← List.append_assoc, List.take_append_drop]
      rw [hsplit]
      exact stripCI_of_lower httpLit (sch.take 4) (sch.drop 4 ++ R)
        (by rw [lower_take, h, lower_httpLit]; decide)
    · have hlow : lower (sch.drop 4) = 's' :: [] := by
        rw [lower_drop, h]
        decide
      obtain ⟨e, es, heq, he, hes⟩ := lower_eq_cons (sch.drop 4) 's' [] hlow
      have hes0 : es = [] := by
        have hl := congrArg List.length hes
        simpa [lower] using hl
      subst hes0
      rw [heq, List.cons_append]
      apply optCI_eq_of_some
      have hstep : stripCI sLit ([e] ++ R) = some R :=
        stripCI_of_lower sLit [e] R (by rw [lower_sLit]; simp [lower, he])
      simpa using hstep

theorem stripHostCore (t seg R : List Char) (ht : lower t = "youtube.com".data)
    (hseg : lower seg = "/shorts/".data) :
    stripCI hostPathLit (t ++ (seg ++ R)) = some R := by
  rw [← List.append_assoc]
  apply stripCI_of_lower
  rw [lower_hostPathLit, lower_append, ht, hseg]
  decide

theorem stripHost (host seg R : List Char)
    (hhost : lower host = "youtube.com".data ∨ lower host = "www.youtube.com".data ∨
      lower host = "m.youtube.com".data ∨ lower host = "www.m.youtube.com".data)
    (hseg : lower seg = "/shorts/".data) :
    stripCI hostPathLit (optCI mLit (optCI wwwLit (host ++ (seg ++ R)))) = some R := by
  rcases hhost with hh | hh | hh | hh
  · obtain ⟨d, ds, hhd, hd, _⟩ := lower_eq_cons host 'y' ("outube.com".data) hh
    have h1 : optCI wwwLit (host ++ (seg ++ R)) = host ++ (seg ++ R) :=
      optCI_skip wwwLit _ 'w' ("ww.".data) rfl d (ds ++ (seg ++ R))
        (by rw [hhd]; rfl) (by rw [hd]; decide)
    have h2 : optCI mLit (host ++ (seg ++ R)) = host ++ (seg ++ R) :=
      optCI_skip mLit _ 'm' (".".data) rfl d (ds ++ (seg ++ R))
        (by rw [hhd]; rfl) (by rw [hd]; decide)
    rw [h1, h2]
    exact stripHostCore host seg R hh hseg
  · have hsplit : host ++ (seg ++ R) = host.take 4 ++ (host.drop 4 ++ (seg ++ R)) :=
      split_take_drop 4 host (seg ++ R)
    have h1 : stripCI wwwLit (host ++ (seg ++ R)) = some (host.drop 4 ++ (seg ++ R)) := by
      rw [hsplit]
      exact stripCI_of_lower wwwLit (host.take 4) _
        (by rw [lower_take, hh, lower_wwwLit]; decide)
    have hlow4 : lower (host.drop 4) = "youtube.com".data := by
      rw [lower_drop, hh]
      decide
    obtain ⟨d, ds, hhd, hd, _⟩ := lower_eq_cons (host.drop 4) 'y' ("outube.com".data) hlow4
    have h2 : optCI mLit (host.drop 4 ++ (seg ++ R)) = host.drop 4 ++ (seg ++ R) :=
      optCI_skip mLit _ 'm' (".".data) rfl d (ds ++ (seg ++ R))
        (by rw [hhd]; rfl) (by rw [hd]; decide)
    rw [optCI_eq_of_some wwwLit _ _ h1, h2]
    exact stripHostCore (host.drop 4) seg R hlow4 hseg
  · obtain ⟨d, ds, hhd, hd, _⟩ := lower_eq_cons host 'm' (".youtube.com".data) hh
    have h1 : optCI wwwLit (host ++ (seg ++ R)) = host ++ (seg ++ R) :=
      optCI_skip wwwLit _ 'w' ("ww.".data) rfl d (ds ++ (seg ++ R))
        (by rw [hhd]; rfl) (by rw [hd]; decide)
    have hsplit : host ++ (seg ++ R) = host.take 2 ++ (host.drop 2 ++ (seg ++ R)) :=
      split_take_drop 2 host (seg ++ R)
    have h2 : stripCI mLit (host ++ (seg ++ R)) = some (host.drop 2 ++ (seg ++ R)) := by
      rw [hsplit]
      exact stripCI_of_lower mLit (host.take 2) _
        (by rw [lower_take, hh, lower_mLit]; decide)
    have hlow2 : lower (host.drop 2) = "youtube.com".data := by
      rw [lower_drop, hh]
      decide
    rw [h1, optCI_eq_of_some mLit _ _ h2]
    exact stripHostCore (host.drop 2) seg R hlow2 hseg
  · have hsplit : host ++ (seg ++ R) = host.take 4 ++ (host.drop 4 ++ (seg ++ R)) :=
      split_take_drop 4 host (seg ++ R)
    have h1 : stripCI wwwLit (host ++ (seg ++ R)) = some (host.drop 4 ++ (seg ++ R)) := by
      rw [hsplit]
      exact stripCI_of_lower wwwLit (host.take 4) _
        (by rw [lower_take, hh, lower_wwwLit]; decide)
    have hlow4 : lower (host.drop 4) = "m.youtube.com".data := by
      rw [lower_drop, hh]
      decide
    have hsplit2 : host.drop 4 ++ (seg ++ R) =
        (host.drop 4).take 2 ++ ((host.drop 4).drop 2 ++ (seg ++ R)) :=
      split_take_drop 2 (host.drop 4) (seg ++ R)
    have h2 : stripCI mLit (host.drop 4 ++ (seg ++ R)) =
        some ((host.drop 4).drop 2 ++ (seg ++ R)) := by
      rw [hsplit2]
      exact stripCI_of_lower mLit ((host.drop 4).take 2) _
        (by rw [lower_take, hlow4, lower_mLit]; decide)
    have hlow6 : lower ((host.drop 4).drop 2) = "youtube.com".data := by
      rw [lower_drop, hlow4]
      decide
    rw [optCI_eq_of_some wwwLit _ _ h1, optCI_eq_of_some mLit _ _ h2]
    exact stripHostCore ((host.drop 4).drop 2) seg R hlow6 hseg

theorem matchShorts_isSome_of_spec (s : List Char) (h : specStartsQualifying s) :
    ∃ n, matchShorts s = some n := by
  obtain ⟨sch, sep, host, seg, idc, rest, hs, hsch, hsep, hhost, hseg, hlen, hid⟩ := h
  obtain ⟨d, ds, hsepd, hd, _⟩ := lower_eq_cons sep ':' ("//".data) hsep
  obtain ⟨s1, e1, e2⟩ := stripScheme sch (sep ++ (host ++ (seg ++ (idc ++ rest)))) hsch d
    (ds ++ (host ++ (seg ++ (idc ++ rest)))) (by rw [hsepd]; rfl) hd
  have e3 : stripCI schemeSepLit (sep ++ (host ++ (seg ++ (idc ++ rest)))) =
      some (host ++ (seg ++ (idc ++ rest))) :=
    stripCI_of_lower schemeSepLit sep _ (by rw [lower_schemeSepLit]; exact hsep)
  have e6 := stripHost host seg (idc ++ rest) hhost hseg
  have hrun : (idc ++ rest).takeWhile isIdChar = idc ++ rest.takeWhile isIdChar :=
    takeWhile_append_all isIdChar idc rest hid
  have hlen5 : 5 ≤ ((idc ++ rest).takeWhile isIdChar).length := by
    rw [hrun, List.length_append]
    omega
  rw [← Option.isSome_iff_exists]
  subst hs
  simp only [matchShorts, e1, e2, e3, e6, Option.some_bind]
  rw [if_pos hlen5]
  rfl

theorem matchShorts_nil : matchShorts [] = none := rfl

theorem spec_of_matchShorts_some (s : List Char) (n : Nat) (h : matchShorts s = some n) :
    specStartsQualifying s := by
  simp only [matchShorts, Option.bind_eq_some] at h
  obtain ⟨s1, h1, s3, h2, s6, h3, hif⟩ := h
  by_cases hrun : 5 ≤ (s6.takeWhile isIdChar).length
  case neg =>
    rw [if_neg hrun] at hif
    cases hif
  rw [stripCI_eq_some_iff] at h1 h2 h3
  obtain ⟨th, hsth, hth⟩ := h1
  obtain ⟨tc, hstc, htc⟩ := h2
  obtain ⟨ty, hsty, hty⟩ := h3
  obtain ⟨ts, hs1, hts⟩ := optCI_decomp sLit s1
  obtain ⟨tw, hs3, htw⟩ := optCI_decomp wwwLit s3
  obtain ⟨tm, hs4, htm⟩ := optCI_decomp mLit (optCI wwwLit s3)
  have hth2 : lower th = "http".data := by rw [hth, lower_httpLit]
  have htc2 : lower tc = "://".data := by rw [htc, lower_schemeSepLit]
  have hty2 : lower ty = "youtube.com/shorts/".data := by rw [hty, lower_hostPathLit]
  have htake : lower (ty.take 11) = "youtube.com".data := by
    rw [lower_take, hty2]
    decide
  have hdrop : lower (ty.drop 11) = "/shorts/".data := by
    rw [lower_drop, hty2]
    decide
  refine ⟨th ++ ts, tc, tw ++ (tm ++ ty.take 11), ty.drop 11,
    s6.takeWhile isIdChar, s6.dropWhile isIdChar, ?_, ?_, htc2, ?_, hdrop, hrun, ?_⟩
  · conv_lhs => rw [hsth, hs1, hstc, hs3, hs4, hsty]
    rw [List.takeWhile_append_dropWhile isIdChar s6]
    simp only [List.append_assoc]
    rw [← split_take_drop 11 ty s6]
  · rcases hts with hts | hts
    · right
      rw [lower_append, hth2, hts, lower_sLit]
      decide
    · left
      rw [hts, List.append_nil]
      exact hth2
  · rcases htw with htw | htw <;> rcases htm with htm | htm
    · right; right; right
      rw [lower_append, lower_append, htw, lower_wwwLit, htm, lower_mLit, htake]
      decide
    · right; left
      rw [htm, List.nil_append, lower_append, htw, lower_wwwLit, htake]
      decide
    · right; right; left
      rw [htw, List.nil_append, lower_append, htm, lower_mLit, htake]
      decide
    · left
      rw [htw, List.nil_append, htm, List.nil_append]
      exact htake
  · exact fun c hc => List.mem_takeWhile_imp hc

theorem findAllAux_ne_nil_iff (fuel : Nat) : ∀ s : List Char, s.length ≤ fuel →
    (findAllAux fuel s ≠ [] ↔ ∃ i n, matchShorts (s.drop i) = some n) := by
  induction fuel with
  | zero =>
      intro s hf
      have hs : s = [] := List.length_eq_zero.mp (Nat.le_zero.mp hf)
      subst hs
      constructor
      · intro h
        exact absurd rfl h
      · rintro ⟨i, n, hi⟩
        rw [List.drop_nil, matchShorts_nil] at hi
        cases hi
  | succ fuel ih =>
      intro s hf
      cases s with
      | nil =>
          constructor
          · intro h
            exact absurd rfl h
          · rintro ⟨i, n, hi⟩
            rw [List.drop_nil, matchShorts_nil] at hi
            cases hi
      | cons c rest =>
          cases hm : matchShorts (c :: rest) with
          | some n =>
              constructor
              · intro _
                exact ⟨0, n, by rw [List.drop_zero]; exact hm⟩
              · intro _
                simp only [findAllAux, hm]
                exact List.cons_ne_nil _ _
          | none =>
              have hlen : rest.length ≤ fuel := by
                simp only [List.length_cons] at hf
                omega
              simp only [findAllAux, hm]
              rw [ih rest hlen]
              constructor
              · rintro ⟨i, n, hi⟩
                exact ⟨i + 1, n, by rw [List.drop_succ_cons]; exact hi⟩
              · rintro ⟨i, n, hi⟩
                cases i with
                | zero =>
                    rw [List.drop_zero, hm] at hi
                    cases hi
                | succ i =>
                    rw [List.drop_succ_cons] at hi
                    exact ⟨i, n, hi⟩

/-! Helper lemmas about the store. -/

theorem count_within_window_append (s t : Store) (g u days now : Int) :
    count_within_window (s ++ t) g u days now =
      count_within_window s g u days now + count_within_window t g u days now := by
  induction s with
  | nil => simp [count_within_window]
  | cons o s ih =>
      simp only [List.cons_append, count_within_window, List.append_eq]
      rw [ih]
      omega

theorem count_reset_zero (s : Store) (g u now now2 : Int) (h : now ≤ now2) :
    count_within_window (shorts_reset_me s g u now) g u ROLLING_WINDOW_DAYS now2 = 0 := by
  induction s with
  | nil => rfl
  | cons o s ih =>
      rw [shorts_reset_me, List.filter_cons]
      by_cases h2 : o.guild_id = g ∧ o.user_id = u ∧
          now - ROLLING_WINDOW_DAYS * secondsPerDay ≤ o.posted_at_utc
      · rw [if_neg (by simp [h2])]
        exact ih
      · have h3 : ¬(o.guild_id = g ∧ o.user_id = u ∧
            now2 - ROLLING_WINDOW_DAYS * secondsPerDay ≤ o.posted_at_utc) := by
          rintro ⟨ha, hb, hc⟩
          refine h2 ⟨ha, hb, ?_⟩
          simp only [ROLLING_WINDOW_DAYS, secondsPerDay] at hc ⊢
          omega
        have hb : (!decide (o.guild_id = g ∧ o.user_id = u ∧
            now - ROLLING_WINDOW_DAYS * secondsPerDay ≤ o.posted_at_utc)) = true := by
          simp only [Bool.not_eq_true', decide_eq_false_iff_not]
          exact h2
        rw [if_pos hb]
        simp only [count_within_window]
        rw [if_neg h3, Nat.zero_add]
        exact ih

/-- Claim C4: for every pair, every window and every store contents,
count_within_window returns exactly the number of rows of the pair with
posted_at_utc at or after the cutoff, and a row of any other pair never
changes the count. -/
theorem count_within_window_exact (s : Store) (g u days now : Int) :
    count_within_window s g u days now =
      (s.filter fun o => decide (o.guild_id = g ∧ o.user_id = u ∧
        now - days * secondsPerDay ≤ o.posted_at_utc)).length ∧
    ∀ o : Occurrence, (o.guild_id ≠ g ∨ o.user_id ≠ u) →
      count_within_window (o :: s) g u days now = count_within_window s g u days now := by
  constructor
  · induction s with
    | nil => rfl
    | cons o s ih =>
        rw [List.filter_cons]
        by_cases h : o.guild_id = g ∧ o.user_id = u ∧
            now - days * secondsPerDay ≤ o.posted_at_utc
        · rw [if_pos (by simp only [decide_eq_true_eq]; exact h)]
          simp only [count_within_window, List.length_cons]
          rw [if_pos h, ih]
          omega
        · rw [if_neg (by simp only [decide_eq_true_eq]; exact h)]
          simp only [count_within_window]
          rw [if_neg h, ih, Nat.zero_add]
  · intro o ho
    have h : ¬(o.guild_id = g ∧ o.user_id = u ∧
        now - days * secondsPerDay ≤ o.posted_at_utc) := by tauto
    simp only [count_within_window]
    rw [if_neg h, Nat.zero_add]

/-- Closed instance of the other-pair part of claim C4: a row of guild 9,
user 9 does not change the count of the pair (1, 2). -/
theorem count_within_window_exact_witness :
    count_within_window (⟨9, 9, 100⟩ :: [⟨1, 2, 100⟩]) 1 2 7 100 =
      count_within_window [⟨1, 2, 100⟩] 1 2 7 100 :=
  (count_within_window_exact [⟨1, 2, 100⟩] 1 2 7 100).2 ⟨9, 9, 100⟩ (by decide)

/-- Claim C1: the quota decision.  A window count of at least one blocks
and leaves the store unchanged; a count of zero records exactly one new
occurrence at now and allows; and after an allow, a second evaluation
within the window blocks and again leaves the store unchanged. -/
theorem evaluate_and_commit_quota_decision (s : Store) (g u now : Int) :
    (1 ≤ count_within_window s g u ROLLING_WINDOW_DAYS now →
      evaluate_and_commit s g u now = (s, Decision.BLOCK)) ∧
    (count_within_window s g u ROLLING_WINDOW_DAYS now = 0 →
      evaluate_and_commit s g u now = (s ++ [⟨g, u, now⟩], Decision.ALLOW)) ∧
    (∀ now2 : Int, now ≤ now2 → now2 ≤ now + ROLLING_WINDOW_DAYS * secondsPerDay →
      (evaluate_and_commit s g u now).2 = Decision.ALLOW →
      evaluate_and_commit (evaluate_and_commit s g u now).1 g u now2 =
        ((evaluate_and_commit s g u now).1, Decision.BLOCK)) := by
  refine ⟨?_, ?_, ?_⟩
  · intro h
    simp [evaluate_and_commit, h]
  · intro h
    simp [evaluate_and_commit, h, record_shorts_post]
  · intro now2 h1 h2 hallow
    by_cases hc : 1 ≤ count_within_window s g u ROLLING_WINDOW_DAYS now
    · simp [evaluate_and_commit, hc] at hallow
    · have hs1 : (evaluate_and_commit s g u now).1 = s ++ [⟨g, u, now⟩] := by
        simp [evaluate_and_commit, hc, record_shorts_post]
      rw [hs1]
      have hone : count_within_window [⟨g, u, now⟩] g u ROLLING_WINDOW_DAYS now2 = 1 := by
        have hcond : (⟨g, u, now⟩ : Occurrence).guild_id = g ∧
            (⟨g, u, now⟩ : Occurrence).user_id = u ∧
            now2 - ROLLING_WINDOW_DAYS * secondsPerDay ≤
              (⟨g, u, now⟩ : Occurrence).posted_at_utc := by
          refine ⟨rfl, rfl, ?_⟩
          simp only [ROLLING_WINDOW_DAYS, secondsPerDay] at h2 ⊢
          omega
        simp [count_within_window, hcond]
      have hcnt : 1 ≤ count_within_window (s ++ [⟨g, u, now⟩]) g u ROLLING_WINDOW_DAYS now2 := by
        rw [count_within_window_append, hone]
        omega
      simp [evaluate_and_commit, hcnt]

/-- Closed instance of claim C1: on an empty store the first evaluation
allows and records, and an evaluation one hour later blocks and leaves
the store unchanged. -/
theorem evaluate_and_commit_quota_decision_witness :
    evaluate_and_commit [] 1 2 0 = ([⟨1, 2, 0⟩], Decision.ALLOW) ∧
    evaluate_and_commit [⟨1, 2, 0⟩] 1 2 3600 = ([⟨1, 2, 0⟩], Decision.BLOCK) := by
  constructor
  · have h := (evaluate_and_commit_quota_decision [] 1 2 0).2.1 (by decide)
    simpa using h
  · have h := (evaluate_and_commit_quota_decision [] 1 2 0).2.2 3600
      (by decide) (by decide) (by decide)
    exact h

/-- Claim C5: a failing count query, or a failing record insert reached
on the allow path, makes the evaluation fail as a whole: the result is a
storage error, never an allow or block outcome with a store. -/
theorem evaluate_and_commitE_store_failure (fc fr : Bool) (s : Store) (g u now : Int)
    (h : fc = true ∨ (fr = true ∧ count_within_window s g u ROLLING_WINDOW_DAYS now = 0)) :
    evaluate_and_commitE fc fr s g u now = Except.error StoreErr.unreachable ∧
    ∀ (s2 : Store) (d : Decision),
      evaluate_and_commitE fc fr s g u now ≠ Except.ok (s2, d) := by
  have hmain : evaluate_and_commitE fc fr s g u now = Except.error StoreErr.unreachable := by
    rcases h with h | ⟨h1, h2⟩
    · simp [evaluate_and_commitE, count_within_windowE, h]
    · cases fc
      · simp [evaluate_and_commitE, count_within_windowE, record_shorts_postE, h1, h2]
      · simp [evaluate_and_commitE, count_within_windowE]
  refine ⟨hmain, fun s2 d => ?_⟩
  rw [hmain]
  simp

/-- Closed instance of claim C5: with an unreachable store the count
query fails and the evaluation returns the storage error. -/
theorem evaluate_and_commitE_store_failure_witness :
    evaluate_and_commitE true false [] 1 2 0 = Except.error StoreErr.unreachable :=
  (evaluate_and_commitE_store_failure true false [] 1 2 0 (Or.inl rfl)).1

/-- Claim C6: the reset deletes exactly the rows of the pair inside the
window (every other row keeps its multiplicity), it is idempotent, and
an evaluation at any time at or after the reset allows. -/
theorem shorts_reset_me_spec (s : Store) (g u now : Int) :
    (∀ o : Occurrence,
      (shorts_reset_me s g u now).count o =
        if o.guild_id = g ∧ o.user_id = u ∧
            now - ROLLING_WINDOW_DAYS * secondsPerDay ≤ o.posted_at_utc
          then 0 else s.count o) ∧
    shorts_reset_me (shorts_reset_me s g u now) g u now = shorts_reset_me s g u now ∧
    (∀ now2 : Int, now ≤ now2 →
      evaluate_and_commit (shorts_reset_me s g u now) g u now2 =
        (shorts_reset_me s g u now ++ [⟨g, u, now2⟩], Decision.ALLOW)) := by
  refine ⟨?_, ?_, ?_⟩
  · intro o
    by_cases hco : o.guild_id = g ∧ o.user_id = u ∧
        now - ROLLING_WINDOW_DAYS * secondsPerDay ≤ o.posted_at_utc
    · rw [if_pos hco, List.count_eq_zero]
      intro hmem
      have h2 := (List.mem_filter.mp hmem).2
      simp [hco] at h2
    · rw [if_neg hco]
      apply List.count_filter
      by_cases hg : o.guild_id = g
      · by_cases hu : o.user_id = u
        · have hp : ¬(now - ROLLING_WINDOW_DAYS * secondsPerDay ≤ o.posted_at_utc) :=
            fun hc => hco ⟨hg, hu, hc⟩
          simp [hg, hu, hp]
        · simp [hu]
      · simp [hg]
  · rw [shorts_reset_me, shorts_reset_me, List.filter_filter]
    simp only [Bool.and_self]
  · intro now2 hle
    have hz := count_reset_zero s g u now now2 hle
    simp [evaluate_and_commit, hz, record_shorts_post]

/-- Closed instance of claim C6: after resetting a store holding one
occurrence of the pair from fifty seconds earlier, an immediate
evaluation allows. -/
theorem shorts_reset_me_spec_witness :
    evaluate_and_commit (shorts_reset_me [⟨1, 2, 50⟩] 1 2 100) 1 2 100 =
      (shorts_reset_me [⟨1, 2, 50⟩] 1 2 100 ++ [⟨1, 2, 100⟩], Decision.ALLOW) :=
  (shorts_reset_me_spec [⟨1, 2, 50⟩] 1 2 100).2.2 100 (by decide)

/-- Claim C2 fails on the code: the handler suspends between its count
query and its record insert, so two concurrent evaluations of the same
pair can both observe a count of zero.  The schedule that runs both
count queries before either record turns two tasks on an empty store
into two ALLOW decisions and two stored occurrences, not exactly one of
each. -/
theorem runSchedule_concurrent_double_allow :
    runSchedule 1 2 0 ([], [TaskPC.ready, TaskPC.ready]) [0, 1, 0, 1] =
      ([⟨1, 2, 0⟩, ⟨1, 2, 0⟩],
       [TaskPC.finished Decision.ALLOW, TaskPC.finished Decision.ALLOW]) := by
  decide

/-- Claim C7: an allowed message records exactly one occurrence, however
many qualifying links its text contains. -/
theorem on_message_records_once (s : Store) (m : Message) (now : Int) (g : Int)
    (hb : m.authorIsBot = false) (hw : m.webhookId = none) (hg : m.guild = some g)
    (hl : extract_shorts_links (some m.content) ≠ [])
    (hc : count_within_window s g m.authorId ROLLING_WINDOW_DAYS now = 0) :
    on_message s m now =
      (s ++ [⟨g, m.authorId, now⟩],
       [Event.matcherRun, Event.countQuery, Event.record, Event.processCommands],
       some Decision.ALLOW) := by
  obtain ⟨x, xs, hxs⟩ : ∃ x xs, extract_shorts_links (some m.content) = x :: xs := by
    cases h : extract_shorts_links (some m.content) with
    | nil => exact absurd h hl
    | cons x xs => exact ⟨x, xs, rfl⟩
  simp [on_message, hb, hw, hg, hxs, hc, record_shorts_post]

/-- Closed instance of claim C7: a message holding two qualifying links
is allowed and records exactly one occurrence. -/
theorem on_message_records_once_witness :
    (extract_shorts_links
      (some "https://youtube.com/shorts/abcde https://youtube.com/shorts/fghij")).length = 2 ∧
    on_message []
        ⟨false, none, "https://youtube.com/shorts/abcde https://youtube.com/shorts/fghij",
          some 1, 2⟩ 0 =
      ([⟨1, 2, 0⟩],
       [Event.matcherRun, Event.countQuery, Event.record, Event.processCommands],
       some Decision.ALLOW) := by
  refine ⟨by decide, ?_⟩
  have h := on_message_records_once []
    ⟨false, none, "https://youtube.com/shorts/abcde https://youtube.com/shorts/fghij",
      some 1, 2⟩ 0 1 rfl rfl rfl (by decide) rfl
  exact h

/-- Claim C3: find_links returns a non-empty sequence exactly when the
text contains an HTTP or HTTPS URL whose host is the target domain with
its optional www. or mobile-subdomain prefixes, whose path starts with
the short-form segment followed by at least five identifier characters
(letters, digits, underscore, hyphen), with scheme, host and path
literals compared case-insensitively and any trailing part ignored. -/
theorem extract_shorts_links_iff_spec (text : String) :
    extract_shorts_links (some text) ≠ [] ↔ specQualifying text.data := by
  have hbase : extract_shorts_links (some text) = findAllAux text.data.length text.data := rfl
  rw [hbase, findAllAux_ne_nil_iff text.data.length text.data (le_refl _)]
  simp only [specQualifying]
  constructor
  · rintro ⟨i, n, hi⟩
    exact ⟨i, spec_of_matchShorts_some _ n hi⟩
  · rintro ⟨i, hi⟩
    obtain ⟨n, hn⟩ := matchShorts_isSome_of_spec _ hi
    exact ⟨i, n, hn⟩

/-- Closed instance of claim C3: a text holding one short-form link
satisfies the specification rule, obtained through the matcher. -/
theorem extract_shorts_links_iff_spec_witness :
    specQualifying ("see https://youtube.com/shorts/abcde".data) :=
  (extract_shorts_links_iff_spec "see https://youtube.com/shorts/abcde").mp (by decide)

/-- Claim C8: the matcher is a total function of the optional text, and
on absent and on empty text it returns the empty sequence. -/
theorem extract_shorts_links_total_empty :
    extract_shorts_links none = [] ∧ extract_shorts_links (some "") = [] := by
  constructor <;> rfl

/-- Claim C9: a message from a bot author or a webhook is dropped before
the matcher runs: the store is unchanged, no effect at all is performed,
and no decision is reached. -/
theorem on_message_ignores_self_and_system (s : Store) (m : Message) (now : Int)
    (h : m.authorIsBot = true ∨ m.webhookId ≠ none) :
    on_message s m now = (s, [], none) := by
  rcases h with h | h
  · simp [on_message, h]
  · have h2 : m.webhookId.isSome = true := Option.isSome_iff_ne_none.mpr h
    simp [on_message, h2]

/-- Closed instance of claim C9: a bot-authored message with a
qualifying link leaves the store alone and performs nothing. -/
theorem on_message_ignores_self_and_system_witness :
    on_message [] ⟨true, none, "https://youtube.com/shorts/abcde", some 1, 2⟩ 0 =
      ([], [], none) :=
  on_message_ignores_self_and_system []
    ⟨true, none, "https://youtube.com/shorts/abcde", some 1, 2⟩ 0 (Or.inl rfl)

/-- Claim C10: a message with a qualifying link but no guild never
reaches the engine: the store is unchanged, nothing is deleted or
blocked, and the message only falls through to command processing. -/
theorem on_message_no_guild_passthrough (s : Store) (m : Message) (now : Int)
    (hb : m.authorIsBot = false) (hw : m.webhookId = none)
    (hl : extract_shorts_links (some m.content) ≠ [])
    (hg : m.guild = none) :
    on_message s m now = (s, [Event.matcherRun, Event.processCommands], none) := by
  obtain ⟨x, xs, hxs⟩ : ∃ x xs, extract_shorts_links (some m.content) = x :: xs := by
    cases h : extract_shorts_links (some m.content) with
    | nil => exact absurd h hl
    | cons x xs => exact ⟨x, xs, rfl⟩
  simp [on_message, hb, hw, hg, hxs]

/-- Closed instance of claim C10: a direct message holding a qualifying
link is passed through without consulting the engine. -/
theorem on_message_no_guild_passthrough_witness :
    on_message [] ⟨false, none, "https://youtube.com/shorts/abcde", none, 2⟩ 0 =
      ([], [Event.matcherRun, Event.processCommands], none) :=
  on_message_no_guild_passthrough []
    ⟨false, none, "https://youtube.com/shorts/abcde", none, 2⟩ 0 rfl rfl (by decide) rfl

end ShortsLimitBot
